import Mathlib

/-!
Verification of the delta reducer in `scripts/reduce-mismatch.py`.

The script shrinks a file exhibiting a mismatch between two external
checkers (`nitrocop`, the subject, and `rubocop`, the reference) to a
small reproduction, using delta debugging: Phase 1 (`reduce_blocks`)
deletes contiguous chunks, Phase 2 (`reduce_lines`) sweeps single lines
bottom to top.  A candidate is the list of lines written to the temp
path by `write_candidate`; the external tools are modelled as functions
from a candidate to the list of offense line numbers they report
(timeouts and malformed output are already folded into the empty
report, exactly as `run_nitrocop` / `run_rubocop` do).
-/

namespace ReduceMismatch

/-- The `--type` CLI option of reduce-mismatch.py: `fp` (extra report of the
subject) or `fn` (missing report of the subject). -/
inductive MismatchType where
  | fp
  | fn
deriving DecidableEq, Repr

/-- Abstract behaviour of the external tools on a candidate (the candidate is
the list of lines of the temp file).  `parseable` embeds `is_parseable`,
`nitrocop` embeds `run_nitrocop`, `rubocop` embeds `run_rubocop`; the latter
two return the reported offense line numbers, with a timeout, a bad exit
status or unparseable JSON already collapsed to the empty report as in the
source. -/
structure Oracles (α : Type) where
  parseable : List α → Bool
  nitrocop : List α → List Nat
  rubocop : List α → List Nat

/-- Call counters: the script's global `_predicate_calls` together with the
number of subprocess invocations of each tool, for call accounting. -/
structure Stats where
  predicate_calls : Nat
  nitrocop_calls : Nat
  rubocop_calls : Nat
deriving DecidableEq, Repr

/-- Instrumented `is_interesting` from reduce-mismatch.py, with the counters.
Faithful to the source: bump `_predicate_calls` first; if the candidate is
not parseable return `False` without running either tool; run nitrocop; for
`fp`: `False` when nitrocop is silent, `True` without consulting rubocop when
`skip_rubocop`, otherwise interesting iff rubocop's report is empty
(`len(rc) == 0`); for `fn`: `False` when nitrocop fires, otherwise
interesting iff rubocop's report is non-empty (`len(rc) > 0`). -/
def is_interestingS (o : Oracles α) (cand : List α) (mismatch_type : MismatchType)
    (skip_rubocop : Bool) (s : Stats) : Bool × Stats :=
  let s1 : Stats := { s with predicate_calls := s.predicate_calls + 1 }
  if !o.parseable cand then (false, s1)
  else
    let nc := o.nitrocop cand
    let s2 : Stats := { s1 with nitrocop_calls := s1.nitrocop_calls + 1 }
    match mismatch_type with
    | .fp =>
        if nc.isEmpty then (false, s2)
        else if skip_rubocop then (true, s2)
        else
          let rc := o.rubocop cand
          (decide (rc.length = 0), { s2 with rubocop_calls := s2.rubocop_calls + 1 })
    | .fn =>
        if !nc.isEmpty then (false, s2)
        else
          let rc := o.rubocop cand
          (decide (0 < rc.length), { s2 with rubocop_calls := s2.rubocop_calls + 1 })

/-- The boolean value of `is_interesting` (the counters never influence it). -/
def is_interesting (o : Oracles α) (cand : List α) (mismatch_type : MismatchType)
    (skip_rubocop : Bool) : Bool :=
  (is_interestingS o cand mismatch_type skip_rubocop ⟨0, 0, 0⟩).1

/-- One chunk-deletion candidate of Phase 1: Python's
`lines[:start] + lines[end:]` with `start = i * chunk_size` and
`end = start + chunk_size if i < n - 1 else len(lines)` (the final chunk
absorbs the integer-division remainder). -/
def chunk_candidate (lines : List α) (n chunk_size i : Nat) : List α :=
  lines.take (i * chunk_size) ++
    lines.drop (if i < n - 1 then i * chunk_size + chunk_size else lines.length)

/-- The `for i in range(n)` scan of Phase 1, at position `i` with `k` indices
still to try: return the first candidate that is non-empty and interesting
(`if not candidate: continue` skips empty candidates before the predicate is
consulted), or `none` when the whole scan fails. -/
def scan_chunks (P : List α → Bool) (lines : List α) (n chunk_size : Nat) :
    Nat → Nat → Option (List α)
  | 0, _ => none
  | k + 1, i =>
      if (chunk_candidate lines n chunk_size i).isEmpty then
        scan_chunks P lines n chunk_size k (i + 1)
      else if P (chunk_candidate lines n chunk_size i) then
        some (chunk_candidate lines n chunk_size i)
      else scan_chunks P lines n chunk_size k (i + 1)

/-- The `while n <= len(lines)` loop of `reduce_blocks`, with an explicit fuel
argument (the bound `bmeasure lines 2 + 1` used by `reduce_blocks` always
suffices, see `reduce_blocks_loop_fuel`).  The chunk size is
`max(1, len(lines) // n)`; on the first successful chunk deletion the
candidate is adopted, `n` is reset to `max 2 (n - 1)` and the scan restarts
from the first chunk; when the full scan fails `n` is doubled. -/
def reduce_blocks_loop (P : List α → Bool) : Nat → List α → Nat → List α
  | 0, lines, _ => lines
  | fuel + 1, lines, n =>
      if lines.length < n then lines
      else
        match scan_chunks P lines n (max 1 (lines.length / n)) n 0 with
        | some candidate => reduce_blocks_loop P fuel candidate (max 2 (n - 1))
        | none => reduce_blocks_loop P fuel lines (2 * n)

/-- Loop measure for Phase 1: strictly decreases along every iteration of
`reduce_blocks_loop`, so it bounds the number of iterations. -/
def bmeasure (lines : List α) (n : Nat) : Nat :=
  lines.length * (lines.length + 2) + (lines.length + 1 - n)

/-- Phase 1 of the reducer (`reduce_blocks`): coarse block deletion, starting
at chunk count `n = 2`, run with sufficient fuel. -/
def reduce_blocks (P : List α → Bool) (lines : List α) : List α :=
  reduce_blocks_loop P (bmeasure lines 2 + 1) lines 2

/-- The `while i >= 0` loop of `reduce_lines`; the first argument is `i + 1`.
The candidate is `lines[:i] + lines[i+1:]`; an empty candidate is skipped, an
interesting candidate is permanently adopted, and in every case the sweep
moves down one index. -/
def reduce_lines_loop (P : List α → Bool) : Nat → List α → List α
  | 0, lines => lines
  | i + 1, lines =>
      if (lines.take i ++ lines.drop (i + 1)).isEmpty then
        reduce_lines_loop P i lines
      else if P (lines.take i ++ lines.drop (i + 1)) then
        reduce_lines_loop P i (lines.take i ++ lines.drop (i + 1))
      else reduce_lines_loop P i lines

/-- Phase 2 of the reducer (`reduce_lines`): one single-line sweep from the
last line (`i = len(lines) - 1`) down to the first. -/
def reduce_lines (P : List α → Bool) (lines : List α) : List α :=
  reduce_lines_loop P lines.length lines

/-- The reduction pipeline run by `main`: Phase 1 then Phase 2, both driven by
the same predicate instance. -/
def reduce_pipeline (P : List α → Bool) (lines : List α) : List α :=
  reduce_lines P (reduce_blocks P lines)

/-- The pre-reduction decision in `main` (source lines 298-331): both tools
are run once on the pristine input; for `fp` the session aborts
(`sys.exit(1)`, nothing written) iff nitrocop's report is empty, and
otherwise proceeds with `skip_rubocop = (len(rc_lines) == 0)`; for `fn` it
aborts iff rubocop's report is empty, and otherwise proceeds with
`skip_rubocop = False`.  `none` is the abort, `some b` proceeds with skip
flag `b`. -/
def initial_check (mismatch_type : MismatchType) (nc_lines rc_lines : List Nat) :
    Option Bool :=
  match mismatch_type with
  | .fp => if nc_lines.isEmpty then none else some rc_lines.isEmpty
  | .fn => if rc_lines.isEmpty then none else some false

/-- Predicate used in the counterexample run for the 1-minimality claim: true
exactly on four specific candidates. -/
def Pmin : List Nat → Bool := fun l =>
  decide (l = [1, 2, 3, 4, 5] ∨ l = [1, 2, 3, 4] ∨ l = [1, 3, 4] ∨ l = [1, 4])

/-- Everywhere-false predicate, for a run in which Phase 2 adopts nothing. -/
def Pnone : List Nat → Bool := fun _ => false

/-- Concrete predicate for the interestingness-preservation witness. -/
def Pone : List Nat → Bool := fun l => decide (l = [4] ∨ l = [4, 5, 6])

/-- Concrete predicate for the monotonic-size witness. -/
def Pc5 : List Nat → Bool := fun l => decide (l = [7])

/-- A predicate agreeing with `Pc5` on every non-empty candidate but differing
on the empty one. -/
def Pc5e : List Nat → Bool := fun l => l.isEmpty || decide (l = [7])

/-- Concrete oracle pair for the predicate-definition witness: everything
parses, nitrocop reports line 3, rubocop is silent. -/
def oFp : Oracles Nat := ⟨fun _ => true, fun _ => [3], fun _ => []⟩

/-- Concrete oracle pair whose validity filter rejects everything, for the
call-accounting witness. -/
def oInv : Oracles Nat := ⟨fun _ => false, fun _ => [1], fun _ => [2]⟩

/-- Concrete oracle pair where both tools fire on every candidate: the
predicate is false on the pristine input, yet `main` proceeds. -/
def oBoth : Oracles Nat := ⟨fun _ => true, fun _ => [3], fun _ => [7]⟩

/-- Concrete predicate for the Phase 1 termination witness. -/
def Pc6 : List Nat → Bool := fun l => decide (l = [2, 3])

theorem take_append_drop_sublist (l : List α) {a b : Nat} (h : a ≤ b) :
    (l.take a ++ l.drop b).Sublist l := by
  have h1 : l.take a = (l.take b).take a := by
    rw [List.take_take, Nat.min_eq_left h]
  have hs : (l.take a ++ l.drop b).Sublist (l.take b ++ l.drop b) :=
    List.Sublist.append (h1 ▸ List.take_sublist a (l.take b)) (List.Sublist.refl _)
  rwa [List.take_append_drop] at hs

theorem chunk_candidate_sublist (lines : List α) (n cs i : Nat) :
    (chunk_candidate lines n cs i).Sublist lines := by
  unfold chunk_candidate
  by_cases hi : i < n - 1
  · rw [if_pos hi]
    exact take_append_drop_sublist _ (Nat.le_add_right _ _)
  · rw [if_neg hi]
    by_cases ha : i * cs ≤ lines.length
    · exact take_append_drop_sublist _ ha
    · rw [List.drop_length, List.take_of_length_le (by omega), List.append_nil]

theorem chunk_candidate_shrinks (lines : List α) (n i : Nat)
    (h2 : 2 ≤ n) (hn : n ≤ lines.length) (hi : i < n) :
    (chunk_candidate lines n (max 1 (lines.length / n)) i).length < lines.length := by
  have h0 : 0 < n := by omega
  have hq1 : 1 ≤ lines.length / n := (Nat.one_le_div_iff h0).mpr hn
  have hmax : max 1 (lines.length / n) = lines.length / n := Nat.max_eq_right hq1
  have hqn : n * (lines.length / n) ≤ lines.length := by
    rw [Nat.mul_comm]
    exact Nat.div_mul_le_self lines.length n
  unfold chunk_candidate
  rw [hmax]
  by_cases hcase : i < n - 1
  · rw [if_pos hcase]
    have h1 : (i + 1) * (lines.length / n) ≤ n * (lines.length / n) :=
      Nat.mul_le_mul_right _ (by omega)
    have hexp : (i + 1) * (lines.length / n) = i * (lines.length / n) + lines.length / n := by
      ring
    simp only [List.length_append, List.length_take, List.length_drop]
    omega
  · rw [if_neg hcase]
    have hieq : i = n - 1 := by omega
    subst hieq
    have hsub : (n - 1) * (lines.length / n) + lines.length / n = n * (lines.length / n) := by
      have h1 : n - 1 + 1 = n := by omega
      calc (n - 1) * (lines.length / n) + lines.length / n
        _ = (n - 1 + 1) * (lines.length / n) := by ring
        _ = n * (lines.length / n) := by rw [h1]
    simp only [List.drop_length, List.append_nil, List.length_take]
    omega

theorem scan_chunks_prop (P : List α → Bool) (lines : List α) (n cs : Nat) :
    ∀ k i c, scan_chunks P lines n cs k i = some c → P c = true ∧ c ≠ [] := by
  intro k
  induction k with
  | zero => intro i c h; exact absurd h (by simp [scan_chunks])
  | succ k ih =>
      intro i c h
      unfold scan_chunks at h
      split at h
      · exact ih (i + 1) c h
      · split at h
        · next hne hP =>
            injection h with h
            subst h
            exact ⟨hP, fun hnil => by simp [hnil] at hne⟩
        · exact ih (i + 1) c h

theorem scan_chunks_sublist (P : List α → Bool) (lines : List α) (n cs : Nat) :
    ∀ k i c, scan_chunks P lines n cs k i = some c → c.Sublist lines := by
  intro k
  induction k with
  | zero => intro i c h; exact absurd h (by simp [scan_chunks])
  | succ k ih =>
      intro i c h
      unfold scan_chunks at h
      split at h
      · exact ih (i + 1) c h
      · split at h
        · injection h with h
          subst h
          exact chunk_candidate_sublist lines n cs i
        · exact ih (i + 1) c h

theorem scan_chunks_shrinks (P : List α → Bool) (lines : List α) (n : Nat)
    (h2 : 2 ≤ n) (hn : n ≤ lines.length) :
    ∀ k i c, i + k ≤ n →
      scan_chunks P lines n (max 1 (lines.length / n)) k i = some c →
      c.length < lines.length := by
  intro k
  induction k with
  | zero => intro i c _ h; exact absurd h (by simp [scan_chunks])
  | succ k ih =>
      intro i c hik h
      unfold scan_chunks at h
      split at h
      · exact ih (i + 1) c (by omega) h
      · split at h
        · injection h with h
          subst h
          exact chunk_candidate_shrinks lines n i h2 hn (by omega)
        · exact ih (i + 1) c (by omega) h

theorem scan_chunks_congr (P Q : List α → Bool) (lines : List α) (n cs : Nat)
    (hPQ : ∀ l : List α, l ≠ [] → P l = Q l) :
    ∀ k i, scan_chunks P lines n cs k i = scan_chunks Q lines n cs k i := by
  intro k
  induction k with
  | zero => intro i; rfl
  | succ k ih =>
      intro i
      unfold scan_chunks
      split
      · exact ih (i + 1)
      · next hne =>
          rw [hPQ _ (fun hnil => by simp [hnil] at hne)]
          split
          · rfl
          · exact ih (i + 1)

theorem reduce_blocks_loop_high (P : List α → Bool) (fuel : Nat) (lines : List α)
    (n : Nat) (h : lines.length < n) :
    reduce_blocks_loop P (fuel + 1) lines n = lines := by
  unfold reduce_blocks_loop
  rw [if_pos h]

theorem reduce_blocks_loop_step (P : List α → Bool) (fuel : Nat) (lines : List α)
    (n : Nat) (h : ¬ lines.length < n) :
    reduce_blocks_loop P (fuel + 1) lines n =
      match scan_chunks P lines n (max 1 (lines.length / n)) n 0 with
      | some candidate => reduce_blocks_loop P fuel candidate (max 2 (n - 1))
      | none => reduce_blocks_loop P fuel lines (2 * n) := by
  conv_lhs => rw [reduce_blocks_loop]
  rw [if_neg h]

theorem reduce_blocks_loop_preserve (P : List α → Bool) :
    ∀ fuel lines n, P lines = true → P (reduce_blocks_loop P fuel lines n) = true := by
  intro fuel
  induction fuel with
  | zero => intro lines n h; exact h
  | succ fuel ih =>
      intro lines n h
      unfold reduce_blocks_loop
      split
      · exact h
      · split
        · next c hc => exact ih c _ (scan_chunks_prop P lines n _ n 0 c hc).1
        · exact ih lines _ h

theorem reduce_blocks_loop_sublist (P : List α → Bool) :
    ∀ fuel lines n, (reduce_blocks_loop P fuel lines n).Sublist lines := by
  intro fuel
  induction fuel with
  | zero => intro lines n; exact List.Sublist.refl _
  | succ fuel ih =>
      intro lines n
      unfold reduce_blocks_loop
      split
      · exact List.Sublist.refl _
      · split
        · next c hc =>
            exact (ih c _).trans (scan_chunks_sublist P lines n _ n 0 c hc)
        · exact ih lines _

theorem reduce_blocks_loop_ne_nil (P : List α → Bool) :
    ∀ fuel lines n, lines ≠ [] → reduce_blocks_loop P fuel lines n ≠ [] := by
  intro fuel
  induction fuel with
  | zero => intro lines n h; exact h
  | succ fuel ih =>
      intro lines n h
      unfold reduce_blocks_loop
      split
      · exact h
      · split
        · next c hc => exact ih c _ (scan_chunks_prop P lines n _ n 0 c hc).2
        · exact ih lines _ h

theorem reduce_blocks_loop_congr (P Q : List α → Bool)
    (hPQ : ∀ l : List α, l ≠ [] → P l = Q l) :
    ∀ fuel lines n, reduce_blocks_loop P fuel lines n = reduce_blocks_loop Q fuel lines n := by
  intro fuel
  induction fuel with
  | zero => intro lines n; rfl
  | succ fuel ih =>
      intro lines n
      unfold reduce_blocks_loop
      rw [scan_chunks_congr P Q lines n _ hPQ]
      split
      · rfl
      · split
        · exact ih _ _
        · exact ih _ _

theorem bmeasure_lt_adopt {Lc L n n' : Nat} (h2' : 2 ≤ n') (hn : n ≤ L) (hlt : Lc < L) :
    Lc * (Lc + 2) + (Lc + 1 - n') < L * (L + 2) + (L + 1 - n) := by
  obtain ⟨l, rfl⟩ : ∃ l, L = l + 1 := ⟨L - 1, by omega⟩
  have hmul : Lc * (Lc + 2) ≤ l * (l + 2) := Nat.mul_le_mul (by omega) (by omega)
  have hkey : (l + 1) * (l + 1 + 2) = l * (l + 2) + 2 * l + 3 := by ring
  omega

theorem reduce_blocks_loop_fuel_aux (P : List α → Bool) :
    ∀ m fuel1 fuel2 (lines : List α) n, 2 ≤ n →
      bmeasure lines n ≤ m → bmeasure lines n < fuel1 → bmeasure lines n < fuel2 →
      reduce_blocks_loop P fuel1 lines n = reduce_blocks_loop P fuel2 lines n := by
  intro m
  induction m with
  | zero =>
      intro fuel1 fuel2 lines n h2 hm h1 hf2
      obtain ⟨f1, rfl⟩ : ∃ f, fuel1 = f + 1 := ⟨fuel1 - 1, by omega⟩
      obtain ⟨f2, rfl⟩ : ∃ f, fuel2 = f + 1 := ⟨fuel2 - 1, by omega⟩
      have hlen : lines.length < n := by
        unfold bmeasure at hm
        omega
      rw [reduce_blocks_loop_high P f1 lines n hlen,
        reduce_blocks_loop_high P f2 lines n hlen]
  | succ m ih =>
      intro fuel1 fuel2 lines n h2 hm h1 hf2
      obtain ⟨f1, rfl⟩ : ∃ f, fuel1 = f + 1 := ⟨fuel1 - 1, by omega⟩
      obtain ⟨f2, rfl⟩ : ∃ f, fuel2 = f + 1 := ⟨fuel2 - 1, by omega⟩
      by_cases hlen : lines.length < n
      · rw [reduce_blocks_loop_high P f1 lines n hlen,
          reduce_blocks_loop_high P f2 lines n hlen]
      · rw [reduce_blocks_loop_step P f1 lines n hlen,
          reduce_blocks_loop_step P f2 lines n hlen]
        have hn : n ≤ lines.length := by omega
        cases hscan : scan_chunks P lines n (max 1 (lines.length / n)) n 0 with
        | some c =>
            have hshrink : c.length < lines.length :=
              scan_chunks_shrinks P lines n h2 hn n 0 c (by omega) hscan
            have hdec : bmeasure c (max 2 (n - 1)) < bmeasure lines n :=
              bmeasure_lt_adopt (Nat.le_max_left _ _) hn hshrink
            exact ih f1 f2 c (max 2 (n - 1)) (Nat.le_max_left _ _)
              (by omega) (by omega) (by omega)
        | none =>
            have hdec : bmeasure lines (2 * n) < bmeasure lines n := by
              unfold bmeasure
              omega
            exact ih f1 f2 lines (2 * n) (by omega) (by omega) (by omega) (by omega)

theorem reduce_lines_loop_preserve (P : List α → Bool) :
    ∀ k lines, P lines = true → P (reduce_lines_loop P k lines) = true := by
  intro k
  induction k with
  | zero => intro lines h; exact h
  | succ k ih =>
      intro lines h
      unfold reduce_lines_loop
      split
      · exact ih lines h
      · split
        · next hP => exact ih _ hP
        · exact ih lines h

theorem reduce_lines_loop_sublist (P : List α → Bool) :
    ∀ k lines, (reduce_lines_loop P k lines).Sublist lines := by
  intro k
  induction k with
  | zero => intro lines; exact List.Sublist.refl _
  | succ k ih =>
      intro lines
      unfold reduce_lines_loop
      split
      · exact ih lines
      · split
        · exact (ih _).trans (take_append_drop_sublist lines (Nat.le_succ k))
        · exact ih lines

theorem reduce_lines_loop_ne_nil (P : List α → Bool) :
    ∀ k lines, lines ≠ [] → reduce_lines_loop P k lines ≠ [] := by
  intro k
  induction k with
  | zero => intro lines h; exact h
  | succ k ih =>
      intro lines h
      unfold reduce_lines_loop
      split
      · exact ih lines h
      · split
        · next hne _ => exact ih _ (fun hnil => by simp [hnil] at hne)
        · exact ih lines h

theorem reduce_lines_loop_congr (P Q : List α → Bool)
    (hPQ : ∀ l : List α, l ≠ [] → P l = Q l) :
    ∀ k lines, reduce_lines_loop P k lines = reduce_lines_loop Q k lines := by
  intro k
  induction k with
  | zero => intro lines; rfl
  | succ k ih =>
      intro lines
      unfold reduce_lines_loop
      split
      · exact ih lines
      · next hne =>
          rw [hPQ _ (fun hnil => by simp [hnil] at hne)]
          split
          · exact ih _
          · exact ih lines

theorem reduce_lines_loop_length (P : List α → Bool) (k : Nat) (lines : List α) :
    (reduce_lines_loop P k lines).length ≤ lines.length :=
  (reduce_lines_loop_sublist P k lines).length_le

theorem reduce_lines_loop_fix (P : List α → Bool) :
    ∀ k lines, k ≤ lines.length → reduce_lines_loop P k lines = lines →
      ∀ i < k, lines.take i ++ lines.drop (i + 1) ≠ [] →
        P (lines.take i ++ lines.drop (i + 1)) = false := by
  intro k
  induction k with
  | zero => intro lines _ _ i hi; omega
  | succ k ih =>
      intro lines hk hfix i hi hne
      unfold reduce_lines_loop at hfix
      by_cases hemp : (lines.take k ++ lines.drop (k + 1)).isEmpty
      · rw [if_pos hemp] at hfix
        rcases Nat.lt_succ_iff_lt_or_eq.mp hi with h | rfl
        · exact ih lines (by omega) hfix i h hne
        · exact absurd (List.isEmpty_iff.mp hemp) hne
      · rw [if_neg hemp] at hfix
        by_cases hP : P (lines.take k ++ lines.drop (k + 1)) = true
        · exfalso
          rw [if_pos hP] at hfix
          have hklt : k < lines.length := by omega
          have hcand : (lines.take k ++ lines.drop (k + 1)).length = lines.length - 1 := by
            simp only [List.length_append, List.length_take, List.length_drop]
            omega
          have hres := reduce_lines_loop_length P k (lines.take k ++ lines.drop (k + 1))
          rw [hfix, hcand] at hres
          omega
        · rw [if_neg hP] at hfix
          rcases Nat.lt_succ_iff_lt_or_eq.mp hi with h | rfl
          · exact ih lines (by omega) hfix i h hne
          · exact Bool.eq_false_iff.mpr hP

theorem reduce_pipeline_sublist (P : List α → Bool) (lines : List α) :
    (reduce_pipeline P lines).Sublist lines :=
  (reduce_lines_loop_sublist P (reduce_blocks P lines).length
    (reduce_blocks P lines)).trans
    (reduce_blocks_loop_sublist P (bmeasure lines 2 + 1) lines 2)

/-- Claim C1: interestingness preservation — both phases are total functions
here (Phase 1 runs on a fuel bound that provably suffices), and when the
predicate holds on the initial line sequence it also holds on the final
output of `reduce_blocks` followed by `reduce_lines`, since a candidate is
adopted only after the predicate accepts it. -/
theorem interestingness_preservation (P : List α → Bool) (lines : List α)
    (h : P lines = true) : P (reduce_pipeline P lines) = true :=
  reduce_lines_loop_preserve P (reduce_blocks P lines).length (reduce_blocks P lines)
    (reduce_blocks_loop_preserve P (bmeasure lines 2 + 1) lines 2 h)

theorem interestingness_preservation_w :
    Pone [4, 5, 6] = true ∧ Pone (reduce_pipeline Pone [4, 5, 6]) = true :=
  ⟨by decide, interestingness_preservation Pone [4, 5, 6] (by decide)⟩

/-- Claim C2 fails as stated: on this concrete run the two-phase pipeline
returns `[1, 3, 4]`, yet deleting its middle line alone yields `[1, 4]`,
which still satisfies the predicate — the single bottom-to-top pass adopted
a deletion after having rejected this one, so the output is not 1-minimal. -/
theorem one_minimality_cex :
    Pmin [1, 2, 3, 4, 5] = true ∧
    reduce_pipeline Pmin [1, 2, 3, 4, 5] = [1, 3, 4] ∧
    Pmin ([1, 3, 4].take 1 ++ [1, 3, 4].drop 2) = true := by decide

/-- Claim C2 amended: when the Phase 2 sweep adopts no deletion — its output
equals its input, as happens e.g. after Phase 1 already ended in a full
fruitless single-line scan — no remaining line whose individual removal
leaves a non-empty candidate can be deleted alone without losing
interestingness.  (Unconditionally the single pass guarantees only that
each tested deletion was uninteresting at the moment it was tested: an
adoption later in the sweep can make an earlier-rejected deletion viable
again, and the empty candidate is never tested at all.) -/
theorem one_minimality_amended (P : List α → Bool) (lines : List α)
    (hfix : reduce_lines P lines = lines) :
    ∀ i < lines.length, lines.take i ++ lines.drop (i + 1) ≠ [] →
      P (lines.take i ++ lines.drop (i + 1)) = false := fun i hi hne =>
  reduce_lines_loop_fix P lines.length lines (le_refl _) hfix i hi hne

theorem one_minimality_amended_w :
    reduce_lines Pnone [1, 2] = [1, 2] ∧
    Pnone ([1, 2].take 0 ++ [1, 2].drop 1) = false :=
  ⟨by decide, one_minimality_amended Pnone [1, 2] (by decide) 0 (by decide) (by decide)⟩

/-- Claim C3 fails as stated: with these oracles both tools fire on the
pristine input, so the interestingness predicate is false on it, yet `main`
does not abort — it warns and proceeds with `skip_rubocop = False`
(`initial_check` returns `some false`, not the abort `none`).  `main` never
evaluates `is_interesting` on the pristine input at all; it calls the two
tools directly. -/
theorem initial_reproduction_cex :
    is_interesting oBoth [1] .fp false = false ∧
    initial_check .fp (oBoth.nitrocop [1]) (oBoth.rubocop [1]) = some false :=
  ⟨rfl, rfl⟩

/-- Claim C3 amended: before reduction `main` runs each tool once on the
pristine input and aborts (exit 1, nothing written) exactly when the
mismatch-defining oracle is silent — for `fp` when the subject (nitrocop)
report is empty, for `fn` when the reference (rubocop) report is empty.  It
does not evaluate the full interestingness predicate: when the predicate is
false only because the other tool also fires, it warns and proceeds. -/
theorem initial_check_characterization (ty : MismatchType) (nc rc : List Nat) :
    initial_check ty nc rc = none ↔
      (ty = .fp ∧ nc = []) ∨ (ty = .fn ∧ rc = []) := by
  cases ty <;> simp only [initial_check] <;> split <;>
    simp_all [List.isEmpty_iff]

/-- Claim C4: on a parseable candidate `is_interesting` is true, for `fp`,
iff the subject (nitrocop) report is non-empty and the reference (rubocop)
report is empty — with the reference call replaced by its cached emptiness
when `skip_rubocop` is on — and, for `fn`, iff the subject report is empty
and the reference report is non-empty. -/
theorem predicate_definition (o : Oracles α) (cand : List α) (skip : Bool)
    (h : o.parseable cand = true) :
    (is_interesting o cand .fp skip = true ↔
      (o.nitrocop cand ≠ [] ∧ (skip = true ∨ o.rubocop cand = []))) ∧
    (is_interesting o cand .fn skip = true ↔
      (o.nitrocop cand = [] ∧ o.rubocop cand ≠ [])) := by
  unfold is_interesting is_interestingS
  rw [h]
  by_cases hnc : o.nitrocop cand = [] <;> cases skip <;>
    simp [hnc, List.isEmpty_iff, List.length_eq_zero, List.length_pos]

theorem predicate_definition_w :
    (is_interesting oFp [1] .fp false = true ↔
      (oFp.nitrocop [1] ≠ [] ∧ (false = true ∨ oFp.rubocop [1] = []))) ∧
    (is_interesting oFp [1] .fn false = true ↔
      (oFp.nitrocop [1] = [] ∧ oFp.rubocop [1] ≠ [])) :=
  predicate_definition oFp [1] false rfl

/-- Claim C5: the pipeline's output line count never exceeds the input line
count; on a non-empty input the output is non-empty; and the output does not
depend on the predicate's value at the empty candidate — a trial whose
candidate would be empty is skipped before the predicate is consulted, in
both phases. -/
theorem monotonic_size (P Q : List α → Bool) (lines : List α)
    (hPQ : ∀ l : List α, l ≠ [] → P l = Q l) :
    (reduce_pipeline P lines).length ≤ lines.length ∧
    (lines ≠ [] → reduce_pipeline P lines ≠ []) ∧
    reduce_pipeline P lines = reduce_pipeline Q lines := by
  refine ⟨(reduce_pipeline_sublist P lines).length_le, ?_, ?_⟩
  · intro hne
    exact reduce_lines_loop_ne_nil P _ _
      (reduce_blocks_loop_ne_nil P _ lines 2 hne)
  · show reduce_lines P (reduce_blocks P lines) = reduce_lines Q (reduce_blocks Q lines)
    have hb : reduce_blocks P lines = reduce_blocks Q lines :=
      reduce_blocks_loop_congr P Q hPQ _ lines 2
    unfold reduce_lines
    rw [hb]
    exact reduce_lines_loop_congr P Q hPQ _ _

theorem monotonic_size_w :
    (reduce_pipeline Pc5 [7]).length ≤ [7].length ∧
    (([7] : List Nat) ≠ [] → reduce_pipeline Pc5 [7] ≠ []) ∧
    reduce_pipeline Pc5 [7] = reduce_pipeline Pc5e [7] :=
  monotonic_size Pc5 Pc5e [7] (fun l hl => by
    cases l with
    | nil => exact absurd rfl hl
    | cons a as => rfl)

/-- Claim C6: Phase 1 terminates on every finite input and predicate — any
fuel beyond the `bmeasure` bound produces the same result as
`reduce_blocks`, whose loop starts at chunk count 2, resets it to
`max 2 (n - 1)` when a chunk removal is accepted (restarting the scan from
the first chunk, the final chunk absorbing the division remainder), doubles
it after a fruitless full scan, and stops exactly when it exceeds the
current line count. -/
theorem phase1_terminates (P : List α → Bool) (lines : List α) (fuel : Nat)
    (h : bmeasure lines 2 < fuel) :
    reduce_blocks_loop P fuel lines 2 = reduce_blocks P lines := by
  unfold reduce_blocks
  exact reduce_blocks_loop_fuel_aux P (bmeasure lines 2) fuel (bmeasure lines 2 + 1)
    lines 2 (le_refl 2) (le_refl _) h (by omega)

theorem phase1_terminates_w :
    bmeasure ([1, 2, 3] : List Nat) 2 < 20 ∧
    reduce_blocks_loop Pc6 20 [1, 2, 3] 2 = reduce_blocks Pc6 [1, 2, 3] :=
  ⟨by decide, phase1_terminates Pc6 [1, 2, 3] 20 (by decide)⟩

/-- Claim C7: every `is_interesting` call increments `_predicate_calls` by
exactly one, including on candidates the validity filter rejects; on such an
invalid candidate the predicate returns false, neither tool is invoked, and
no other counter changes. -/
theorem call_accounting (o : Oracles α) (cand : List α) (ty : MismatchType)
    (skip : Bool) (st : Stats) :
    (is_interestingS o cand ty skip st).2.predicate_calls = st.predicate_calls + 1 ∧
    (o.parseable cand = false →
      is_interestingS o cand ty skip st =
        (false, { st with predicate_calls := st.predicate_calls + 1 })) := by
  constructor
  · unfold is_interestingS
    cases hp : o.parseable cand
    · rfl
    · cases ty
      · by_cases hnc : (o.nitrocop cand).isEmpty <;> by_cases hs : skip <;>
          simp [hnc, hs]
      · by_cases hnc : (o.nitrocop cand).isEmpty <;> simp [hnc]
  · intro hp
    unfold is_interestingS
    rw [hp]
    rfl

theorem call_accounting_w :
    (is_interestingS oInv [5] .fp false ⟨0, 0, 0⟩).2.predicate_calls = 0 + 1 ∧
    is_interestingS oInv [5] .fp false ⟨0, 0, 0⟩ = (false, ⟨1, 0, 0⟩) :=
  ⟨(call_accounting oInv [5] .fp false ⟨0, 0, 0⟩).1,
    (call_accounting oInv [5] .fp false ⟨0, 0, 0⟩).2 rfl⟩

/-- Claim C8 fails as stated: the skip-reference optimization is not an
explicit opt-in per-session flag — `main` computes
`skip_rubocop = (len(rc_lines) == 0)` from the initial oracle reports, so
the same configuration-free session enables it or not depending solely on
what the reference tool reported. -/
theorem skip_flag_cex :
    initial_check .fp [3] [] = some true ∧ initial_check .fp [3] [7] = some false :=
  ⟨rfl, rfl⟩

/-- Claim C8 amended: the skip-reference optimization is inferred per
session from the initial oracle reports rather than explicitly configured —
a session that proceeds has it enabled exactly when the mismatch kind is
`fp` and the initial reference report is empty, and always disabled for
`fn`. -/
theorem skip_flag_amended (ty : MismatchType) (nc rc : List Nat) (b : Bool)
    (h : initial_check ty nc rc = some b) :
    b = true ↔ (ty = .fp ∧ rc = []) := by
  cases ty
  · simp only [initial_check] at h
    split at h
    · exact absurd h (by simp)
    · injection h with h
      subst h
      simp [List.isEmpty_iff]
  · simp only [initial_check] at h
    split at h
    · exact absurd h (by simp)
    · injection h with h
      subst h
      simp

theorem skip_flag_amended_w :
    (true = true ↔ (MismatchType.fp = MismatchType.fp ∧ ([] : List Nat) = [])) :=
  skip_flag_amended .fp [3] [] true rfl

/-- Claim C9: the outputs of `reduce_blocks` and of `reduce_lines` are
subsequences of their respective inputs — every trial deletes one contiguous
chunk or one single line, so each surviving line occurs in the input in the
same relative order and multiplicity, and no line is edited, duplicated or
reordered. -/
theorem subsequence_invariant (P : List α → Bool) (lines : List α) :
    (reduce_blocks P lines).Sublist lines ∧ (reduce_lines P lines).Sublist lines :=
  ⟨reduce_blocks_loop_sublist P (bmeasure lines 2 + 1) lines 2,
    reduce_lines_loop_sublist P lines.length lines⟩

/-- Claim C10: in `fn` mode `is_interesting` never reads the skip flag — on
every candidate the result, and even the counters, are identical for the
flag on and off, because the `fn` branch always consults the reference tool
whenever the subject is silent. -/
theorem fn_skip_noninterference (o : Oracles α) (cand : List α)
    (skip1 skip2 : Bool) (st : Stats) :
    is_interestingS o cand .fn skip1 st = is_interestingS o cand .fn skip2 st := rfl

end ReduceMismatch
